import Mathlib

/-!
A shallow embedding of the box-opening subsystem of the FastAPI repository
(`services/box_service.py`, `routers/user_router.py`, `models.py`), together
with theorems settling the frozen claims about it.

Database rows are modelled as structures, tables as lists of rows, and the
`users.key_count` column as a function from user id to `Int` (user ids are
unique, and the services only ever read and write the `key_count` field of a
user row).  Raw SQL statements are translated statement by statement; in
particular the `LEFT JOIN` cartesian fan-out of the key-calculation query is
modelled faithfully.  `HTTPException` control flow is modelled by result
inductives: a raised exception before `db.commit()` leaves the session
uncommitted, and `get_db` (database.py) closes the session so the transaction
rolls back; hence failure branches return the pre-state unchanged.
-/

namespace BoxCampaign

/-- `models.UserSocial` (table `user_social`): one social-platform link row.
`deleted` is the soft-delete flag inherited from `BaseModelC`. -/
structure UserSocialRow where
  id : Nat
  user_id : Nat
  platform : String
  handle : String
  deleted : Bool
deriving DecidableEq, Repr

/-- `models.UserNFT` (table `user_nft`): one NFT-ownership row.
`created_at` is an abstract timestamp ordinal. -/
structure UserNFTRow where
  id : Nat
  user_id : Nat
  nft_collection : String
  nft_id : String
  used : Bool
  deleted : Bool
  created_at : Nat
deriving DecidableEq, Repr

/-- `models.Box` (table `boxes`): one prize-box row. -/
structure BoxRow where
  id : Nat
  position : Nat
  reward_type : String
  reward_description : String
  is_opened : Bool
  opened_by_user_id : Option Nat
  deleted : Bool
deriving DecidableEq, Repr

/-- The single-row `box_counter` table created by
`BoxOpeningService.initialize_system`. -/
structure BoxCounter where
  next_position : Nat
  total_boxes : Nat
deriving DecidableEq, Repr

/-- The mutable database state touched by the box-opening subsystem.
`key_count` is the `users.key_count` column, keyed by user id. -/
structure AppState where
  counter : BoxCounter
  boxes : List BoxRow
  key_count : Nat → Int
  nfts : List UserNFTRow
  socials : List UserSocialRow

/-- The required social platforms, as hard-coded both in the key-calculation
SQL (`us.platform IN ('twitter', 'discord', 'telegram')`) and in
`required_platforms` in `calculate_user_keys`. -/
def requiredPlatforms : List String := ["twitter", "discord", "telegram"]

/-- The row set produced by the key-calculation query of
`BoxOpeningService.calculate_user_keys`:
`FROM users u LEFT JOIN user_social us ON u.id = us.user_id AND us.deleted = false
LEFT JOIN user_nft un ON u.id = un.user_id AND un.deleted = false WHERE u.id = :user_id`.
Each not-deleted social row of the user is paired with each not-deleted NFT
row of the user; a side with no rows contributes a single NULL, as in SQL
left-join semantics.  (When the user row itself is absent the query returns
no row and the Python code substitutes all zeros, which coincides with the
value computed here over empty tables, so user existence is immaterial.) -/
def joinRows (socials : List UserSocialRow) (nfts : List UserNFTRow) (uid : Nat) :
    List (Option UserSocialRow × Option UserNFTRow) :=
  let ss := socials.filter fun r => r.user_id == uid && !r.deleted
  let ns := nfts.filter fun r => r.user_id == uid && !r.deleted
  let left := if ss.isEmpty then ([none] : List (Option UserSocialRow)) else ss.map some
  if ns.isEmpty then left.map fun so => (so, none)
  else left.flatMap fun so => ns.map fun n => (so, some n)

/-- `COUNT(DISTINCT CASE WHEN us.platform IN ('twitter','discord','telegram')
AND us.deleted = false THEN us.platform END)` over the joined rows. -/
def sqlSocialPlatforms (rows : List (Option UserSocialRow × Option UserNFTRow)) : Nat :=
  (rows.filterMap fun sn =>
    match sn.1 with
    | some r => if requiredPlatforms.contains r.platform && !r.deleted then some r.platform else none
    | none => none).dedup.length

/-- `COUNT(CASE WHEN un.used = false AND un.deleted = false THEN 1 END)` over
the joined rows. -/
def sqlUnusedNfts (rows : List (Option UserSocialRow × Option UserNFTRow)) : Nat :=
  (rows.filter fun sn =>
    match sn.2 with
    | some n => !n.used && !n.deleted
    | none => false).length

/-- The fields of the dictionary returned by
`BoxOpeningService.calculate_user_keys` that the claims mention. -/
structure KeyInfo where
  social_keys : Nat
  nft_keys : Nat
  total_available : Nat
  social_completed : Bool
  unused_nft_count : Nat
deriving DecidableEq, Repr

/-- `BoxOpeningService.calculate_user_keys`: runs the single aggregate query
over the joined rows, then applies the social step function and the NFT
floor/cap mapping. -/
def calculate_user_keys (socials : List UserSocialRow) (nfts : List UserNFTRow)
    (uid : Nat) : KeyInfo :=
  let rows := joinRows socials nfts uid
  let social_platforms := sqlSocialPlatforms rows
  let unused_nfts := sqlUnusedNfts rows
  let social_tasks_completed : Bool := decide (3 ≤ social_platforms)
  let social_keys := if social_tasks_completed then 1 else 0
  let nft_keys :=
    if unused_nfts = 0 then 0
    else if unused_nfts = 1 then 2
    else min unused_nfts 10
  { social_keys := social_keys
    nft_keys := nft_keys
    total_available := social_keys + nft_keys
    social_completed := social_tasks_completed
    unused_nft_count := unused_nfts }

/-- The lightweight `FastBox` object built inside
`BoxOpeningService.assign_next_box_atomically` from the `RETURNING` row. -/
structure FastBox where
  id : Nat
  position : Nat
  reward_type : String
  reward_description : String
  opened_by_user_id : Nat
deriving DecidableEq, Repr

/-- `BoxOpeningService.assign_next_box_atomically`.
Step 1 runs `UPDATE box_counter SET next_position = next_position + 1 WHERE id = 1
AND next_position <= total_boxes RETURNING next_position - 1`; no row means the
counter is exhausted and the function returns `None`.  Step 2 runs
`UPDATE boxes SET is_opened = true, opened_by_user_id = ... WHERE position = :position
AND is_opened = false AND deleted = false RETURNING ...`; no row means the box at the
assigned position was missing or already opened and the function returns `None`
(the pending counter update is then never committed by `open_box`, but within
this function the session state carries it, which the second component records). -/
def assign_next_box_atomically (uid : Nat) (s : AppState) : Option FastBox × AppState :=
  if s.counter.next_position ≤ s.counter.total_boxes then
    let assigned_position := s.counter.next_position
    let counter' : BoxCounter :=
      { next_position := s.counter.next_position + 1, total_boxes := s.counter.total_boxes }
    match s.boxes.find? (fun b => b.position == assigned_position && !b.is_opened && !b.deleted) with
    | some b =>
        let boxes' := s.boxes.map fun c =>
          if c.position == assigned_position && !c.is_opened && !c.deleted then
            { c with is_opened := true, opened_by_user_id := some uid }
          else c
        (some { id := b.id, position := b.position, reward_type := b.reward_type,
                reward_description := b.reward_description, opened_by_user_id := uid },
         { s with counter := counter', boxes := boxes' })
    | none => (none, { s with counter := counter' })
  else (none, s)

/-- The fields of the dictionary returned by a successful
`BoxOpeningService.open_box` that the claims mention: `box.id`,
`box.position`, `user.remaining_keys`, and the `key_consumption` entries. -/
structure OpenResponse where
  box_id : Nat
  box_position : Nat
  remaining_keys : Int
  key_source : String
  nfts_used : List Nat
  key_remaining_available : Nat
deriving DecidableEq, Repr

/-- Outcome of `BoxOpeningService.open_box`: `insufficientKeys` is the
`HTTPException(400, "No keys available...")`, `poolExhausted` the
`HTTPException(404, "No boxes available...")`, `opened` the success dictionary. -/
inductive OpenBoxResult where
  | insufficientKeys
  | poolExhausted
  | opened (resp : OpenResponse)
deriving DecidableEq, Repr

/-- `BoxOpeningService.open_box`.  A raised `HTTPException` propagates before
`db.commit()` is reached, so the transaction (including any pending counter
update from step 1 of the assignment) is rolled back when `get_db` closes the
session: failure branches return the pre-state.  On success the user's
`key_count` is decremented by 1 and everything commits; the response hard-codes
`key_consumption.key_source = "social"` and `key_consumption.nfts_used = []`,
and reports `calculate_user_keys` of the committed state. -/
def open_box (uid : Nat) (s : AppState) : OpenBoxResult × AppState :=
  if s.key_count uid ≤ 0 then (.insufficientKeys, s)
  else
    match assign_next_box_atomically uid s with
    | (none, _) => (.poolExhausted, s)
    | (some box, s₁) =>
        let s₂ : AppState :=
          { s₁ with key_count := fun u => if u = uid then s₁.key_count u - 1 else s₁.key_count u }
        let key_info := calculate_user_keys s₂.socials s₂.nfts uid
        (.opened { box_id := box.id
                   box_position := box.position
                   remaining_keys := s₂.key_count uid
                   key_source := "social"
                   nfts_used := []
                   key_remaining_available := key_info.total_available }, s₂)

/-- A sequence of `open_box` calls, one per listed user id, each running
against the state left by the previous one. -/
def runOpen : List Nat → AppState → List OpenBoxResult × AppState
  | [], s => ([], s)
  | u :: us, s =>
      let p := open_box u s
      let q := runOpen us p.2
      (p.1 :: q.1, q.2)

/-- Positions of the unclaimed boxes of a state: not opened, not soft-deleted. -/
def unclaimedPositions (s : AppState) : List Nat :=
  (s.boxes.filter fun b => !b.is_opened && !b.deleted).map BoxRow.position

/-- The positions returned by the successful calls of a result list. -/
def successPositions (rs : List OpenBoxResult) : List Nat :=
  rs.filterMap fun r =>
    match r with
    | .opened resp => some resp.box_position
    | _ => none

/-- Whether a result is a success. -/
def isOpenedB : OpenBoxResult → Bool
  | .opened _ => true
  | _ => false

/-- Whether a result is the pool-exhausted failure. -/
def isExhaustedB : OpenBoxResult → Bool
  | .poolExhausted => true
  | _ => false

/-- Well-formedness of the pool state, as established by
`populate_boxes.py` + `BoxOpeningService.initialize_system` and preserved by
the subsystem's own operations: no soft-deleted boxes, pairwise distinct
positions covering `1..total_boxes`, a box opened exactly when its position
is below the counter, and the counter within `1..total_boxes + 1`. -/
def PoolWF (s : AppState) : Prop :=
  (∀ b ∈ s.boxes, b.deleted = false)
  ∧ (s.boxes.map BoxRow.position).Nodup
  ∧ (∀ p ∈ List.range' 1 s.counter.total_boxes, ∃ b ∈ s.boxes, b.position = p)
  ∧ (∀ b ∈ s.boxes, 1 ≤ b.position ∧ b.position ≤ s.counter.total_boxes)
  ∧ (∀ b ∈ s.boxes, b.is_opened = true ↔ b.position < s.counter.next_position)
  ∧ 1 ≤ s.counter.next_position
  ∧ s.counter.next_position ≤ s.counter.total_boxes + 1

instance (s : AppState) : Decidable (PoolWF s) := by
  unfold PoolWF
  infer_instance

/-- Whether the user has linked a platform: a not-deleted `user_social` row
of the user with that platform exists. -/
def linked (socials : List UserSocialRow) (uid : Nat) (p : String) : Prop :=
  ∃ r ∈ socials, r.user_id = uid ∧ r.deleted = false ∧ r.platform = p

instance (socials : List UserSocialRow) (uid : Nat) (p : String) :
    Decidable (linked socials uid p) := by
  unfold linked
  infer_instance

/-- `valid_platforms` in `add_social` (routers/user_router.py). -/
def validPlatforms : List String := ["twitter", "discord", "telegram"]

/-- Outcome of the `POST /users/socials` handler `add_social`:
400 invalid platform, 409 conflict, 200 all-three-connected (key awarded),
201 created. -/
inductive AddSocialResult where
  | invalidPlatform
  | conflict
  | allConnected
  | created
deriving DecidableEq, Repr

/-- `add_social` (routers/user_router.py).  The existence check
`db.query(UserSocial).filter(user_id == ..., platform == ...).first()` carries
no `deleted` filter, so soft-deleted rows also trigger the 409 conflict.  The
post-insert count likewise queries rows (not distinct platforms) with no
`deleted` filter.  `newId` is the autoincrement id given to the created row. -/
def add_social (uid : Nat) (platform handle : String) (newId : Nat)
    (s : AppState) : AddSocialResult × AppState :=
  if platform ∉ validPlatforms then (.invalidPlatform, s)
  else
    match s.socials.find? (fun r => r.user_id == uid && r.platform == platform) with
    | some _ => (.conflict, s)
    | none =>
        let socials' := s.socials ++
          [{ id := newId, user_id := uid, platform := platform, handle := handle, deleted := false }]
        let connected : Nat :=
          (socials'.filter fun r => r.user_id == uid && validPlatforms.contains r.platform).length
        if connected = 3 then
          (.allConnected,
           { s with socials := socials'
                    key_count := fun u => if u = uid then s.key_count u + 1 else s.key_count u })
        else (.created, { s with socials := socials' })

/-- `BaseModelC.delete` (models.py) applied to a `UserSocial` row: the soft
delete sets `deleted = True` and keeps the row. -/
def social_soft_delete (rid : Nat) (s : AppState) : AppState :=
  { s with socials := s.socials.map fun r => if r.id == rid then { r with deleted := true } else r }

/-- Outcome of the per-position claim: box absent (404), box already claimed
by anyone (conflict), or success. -/
inductive ClaimSpecificResult where
  | notFound
  | alreadyClaimed
  | success (box : FastBox)
deriving DecidableEq, Repr

/-- Modelled from the spec: `BoxOpeningService.open_assigned_box`, the service
method behind the `POST /open` route (routers/box_router.py line 68), is
declared and called there but its implementation is absent from the source
tree.  Spec section 4.2 specifies
`claimSpecific(userId, position) -> Reward | NotFound | AlreadyClaimed`: the
reward did not exist, the reward existed but was already claimed (by anyone,
including the same user), or success, with the same exactly-once exclusivity
guarantee scoped to the one position. -/
def claimSpecific (uid : Nat) (pos : Nat) (s : AppState) : ClaimSpecificResult × AppState :=
  match s.boxes.find? (fun b => b.position == pos && !b.deleted) with
  | none => (.notFound, s)
  | some b =>
      if b.is_opened then (.alreadyClaimed, s)
      else
        let boxes' := s.boxes.map fun c =>
          if c.position == pos && !c.deleted then
            { c with is_opened := true, opened_by_user_id := some uid }
          else c
        (.success { id := b.id, position := b.position, reward_type := b.reward_type,
                    reward_description := b.reward_description, opened_by_user_id := uid },
         { s with boxes := boxes' })

/-! ### Lemmas about the key-calculation query -/

/-- The (multiset of) platform values that the `DISTINCT CASE` social count of
the key-calculation query aggregates over. -/
def socialVals (socials : List UserSocialRow) (nfts : List UserNFTRow) (uid : Nat) :
    List String :=
  (joinRows socials nfts uid).filterMap fun sn =>
    match sn.1 with
    | some r => if requiredPlatforms.contains r.platform && !r.deleted then some r.platform else none
    | none => none

theorem sqlSocialPlatforms_joinRows (socials : List UserSocialRow)
    (nfts : List UserNFTRow) (uid : Nat) :
    sqlSocialPlatforms (joinRows socials nfts uid) = (socialVals socials nfts uid).dedup.length := rfl

/-- The `CASE` expression of the social count maps a joined social value to
`some p` exactly when the row is a not-deleted required-platform row for `p`. -/
theorem caseVal_eq_some (so : Option UserSocialRow) (p : String) :
    (match so with
      | some r => if requiredPlatforms.contains r.platform && !r.deleted then some r.platform else none
      | none => none) = some p ↔
      ∃ r, so = some r ∧ p ∈ requiredPlatforms ∧ r.deleted = false ∧ r.platform = p := by
  cases so with
  | none =>
      simp
  | some r =>
      simp only [Option.some_inj]
      rw [Option.ite_none_right_eq_some, Option.some_inj, Bool.and_eq_true, Bool.not_eq_true']
      constructor
      · rintro ⟨⟨hc, hd⟩, hp⟩
        exact ⟨r, rfl, hp ▸ List.elem_iff.mp hc, hd, hp⟩
      · rintro ⟨r', hr', hreq, hd, hp⟩
        subst hr'
        exact ⟨⟨List.elem_iff.mpr (hp ▸ hreq), hd⟩, hp⟩

/-- The social (left) side of the joined rows contains `some r` exactly when
`r` is a not-deleted social row of the user. -/
theorem mem_joinLeft (socials : List UserSocialRow) (uid : Nat) (r : UserSocialRow) :
    (some r) ∈ (if (socials.filter fun q => q.user_id == uid && !q.deleted).isEmpty
        then ([none] : List (Option UserSocialRow))
        else (socials.filter fun q => q.user_id == uid && !q.deleted).map some) ↔
      (r ∈ socials ∧ r.user_id = uid ∧ r.deleted = false) := by
  have hfil : ∀ q : UserSocialRow,
      q ∈ (socials.filter fun q => q.user_id == uid && !q.deleted) ↔
        (q ∈ socials ∧ q.user_id = uid ∧ q.deleted = false) := by
    intro q
    rw [List.mem_filter, Bool.and_eq_true, Bool.not_eq_true', beq_iff_eq]
  split
  next h =>
      rw [List.isEmpty_iff] at h
      simp only [List.mem_singleton]
      constructor
      · intro hx
        exact absurd hx (by simp)
      · rintro ⟨hr, hu, hd⟩
        have hq : r ∈ (socials.filter fun q => q.user_id == uid && !q.deleted) :=
          (hfil r).mpr ⟨hr, hu, hd⟩
        rw [h] at hq
        exact absurd hq (by simp)
  next h =>
      rw [List.mem_map]
      constructor
      · rintro ⟨q, hq, hqe⟩
        rw [Option.some_inj] at hqe
        subst hqe
        exact (hfil q).mp hq
      · intro hr
        exact ⟨r, (hfil r).mpr hr, rfl⟩

/-- Let-free unfolding of `joinRows`. -/
theorem joinRows_eq (socials : List UserSocialRow) (nfts : List UserNFTRow) (uid : Nat) :
    joinRows socials nfts uid =
      if (nfts.filter fun r => r.user_id == uid && !r.deleted).isEmpty then
        (if (socials.filter fun q => q.user_id == uid && !q.deleted).isEmpty
          then ([none] : List (Option UserSocialRow))
          else (socials.filter fun q => q.user_id == uid && !q.deleted).map some).map
          fun so => (so, none)
      else
        (if (socials.filter fun q => q.user_id == uid && !q.deleted).isEmpty
          then ([none] : List (Option UserSocialRow))
          else (socials.filter fun q => q.user_id == uid && !q.deleted).map some).flatMap
          fun so => (nfts.filter fun r => r.user_id == uid && !r.deleted).map fun n =>
            (so, some n) := rfl

/-- Membership in the aggregated platform values: the cartesian fan-out of the
two left joins never adds or removes platform values, so a platform appears
exactly when the user has a not-deleted link row for it and it is required. -/
theorem mem_socialVals (socials : List UserSocialRow) (nfts : List UserNFTRow)
    (uid : Nat) (p : String) :
    p ∈ socialVals socials nfts uid ↔ p ∈ requiredPlatforms ∧ linked socials uid p := by
  unfold socialVals linked
  rw [joinRows_eq, List.mem_filterMap]
  constructor
  · rintro ⟨sn, hsn, hval⟩
    rw [caseVal_eq_some] at hval
    obtain ⟨r, hfst, hreq, hd, hp⟩ := hval
    have hleft : (some r) ∈ (if (socials.filter fun q => q.user_id == uid && !q.deleted).isEmpty
        then ([none] : List (Option UserSocialRow))
        else (socials.filter fun q => q.user_id == uid && !q.deleted).map some) := by
      rw [← hfst]
      split at hsn
      · rw [List.mem_map] at hsn
        obtain ⟨so, hso, rfl⟩ := hsn
        exact hso
      · rw [List.mem_flatMap] at hsn
        obtain ⟨so, hso, hsn2⟩ := hsn
        rw [List.mem_map] at hsn2
        obtain ⟨n, _, rfl⟩ := hsn2
        exact hso
    rw [mem_joinLeft] at hleft
    exact ⟨hreq, r, hleft.1, hleft.2.1, hleft.2.2, hp⟩
  · rintro ⟨hreq, r, hr, hru, hrd, hrp⟩
    have hleft : (some r) ∈ (if (socials.filter fun q => q.user_id == uid && !q.deleted).isEmpty
        then ([none] : List (Option UserSocialRow))
        else (socials.filter fun q => q.user_id == uid && !q.deleted).map some) :=
      (mem_joinLeft socials uid r).mpr ⟨hr, hru, hrd⟩
    have hval : (match (some r : Option UserSocialRow) with
        | some q => if requiredPlatforms.contains q.platform && !q.deleted then some q.platform else none
        | none => none) = some p :=
      (caseVal_eq_some (some r) p).mpr ⟨r, rfl, hreq, hrd, hrp⟩
    split
    next =>
        refine ⟨(some r, none), ?_, hval⟩
        rw [List.mem_map]
        exact ⟨some r, hleft, rfl⟩
    next hns =>
        rw [Bool.not_eq_true, List.isEmpty_eq_false] at hns
        obtain ⟨n, hn⟩ := List.exists_mem_of_ne_nil _ hns
        refine ⟨(some r, some n), ?_, hval⟩
        rw [List.mem_flatMap]
        refine ⟨some r, hleft, ?_⟩
        rw [List.mem_map]
        exact ⟨n, hn, rfl⟩

/-- A deduplicated list of required platforms has length at least 3 exactly
when all three required platforms occur. -/
theorem three_le_dedup_length_iff (L : List String)
    (hsub : ∀ x ∈ L, x ∈ requiredPlatforms) :
    3 ≤ L.dedup.length ↔
      ("twitter" ∈ L ∧ "discord" ∈ L ∧ "telegram" ∈ L) := by
  have hn : L.dedup.Nodup := List.nodup_dedup L
  have hcard : L.dedup.toFinset.card = L.dedup.length := List.toFinset_card_of_nodup hn
  have hsubF : L.dedup.toFinset ⊆ ({"twitter", "discord", "telegram"} : Finset String) := by
    intro x hx
    rw [List.mem_toFinset, List.mem_dedup] at hx
    have := hsub x hx
    simp only [requiredPlatforms, List.mem_cons, List.not_mem_nil, or_false] at this
    simp only [Finset.mem_insert, Finset.mem_singleton]
    tauto
  have hcard3 : ({"twitter", "discord", "telegram"} : Finset String).card = 3 := by decide
  constructor
  · intro h3
    have hle : ({"twitter", "discord", "telegram"} : Finset String).card ≤ L.dedup.toFinset.card := by
      rw [hcard3, hcard]
      exact h3
    have heq := Finset.eq_of_subset_of_card_le hsubF hle
    have hmem : ∀ x ∈ ({"twitter", "discord", "telegram"} : Finset String), x ∈ L := by
      intro x hx
      rw [← heq, List.mem_toFinset, List.mem_dedup] at hx
      exact hx
    exact ⟨hmem _ (by decide), hmem _ (by decide), hmem _ (by decide)⟩
  · rintro ⟨ht, hd, htg⟩
    have hsupF : ({"twitter", "discord", "telegram"} : Finset String) ⊆ L.dedup.toFinset := by
      intro x hx
      rw [List.mem_toFinset, List.mem_dedup]
      simp only [Finset.mem_insert, Finset.mem_singleton] at hx
      rcases hx with rfl | rfl | rfl
      · exact ht
      · exact hd
      · exact htg
    have := Finset.card_le_card hsupF
    rw [hcard3, hcard] at this
    exact this

/-- C7. `calculate_user_keys` awards `social_keys = 1` exactly when the user
has not-deleted link rows for all of twitter, discord and telegram, and 0
otherwise.  Duplicate rows for a platform count once (the count is over
distinct platform values), and platforms outside the required set are
filtered out by the `CASE` expression, so they never contribute. -/
theorem social_keys_step_function (socials : List UserSocialRow)
    (nfts : List UserNFTRow) (uid : Nat) :
    (calculate_user_keys socials nfts uid).social_keys =
      if linked socials uid ("twitter") ∧ linked socials uid ("discord") ∧
          linked socials uid ("telegram") then 1 else 0 := by
  have hsub : ∀ x ∈ socialVals socials nfts uid, x ∈ requiredPlatforms := by
    intro x hx
    exact ((mem_socialVals socials nfts uid x).1 hx).1
  have hiff : (3 ≤ sqlSocialPlatforms (joinRows socials nfts uid)) ↔
      (linked socials uid ("twitter") ∧ linked socials uid ("discord") ∧
        linked socials uid ("telegram")) := by
    rw [sqlSocialPlatforms_joinRows, three_le_dedup_length_iff _ hsub]
    have h1 := mem_socialVals socials nfts uid ("twitter")
    have h2 := mem_socialVals socials nfts uid ("discord")
    have h3 := mem_socialVals socials nfts uid ("telegram")
    constructor
    · rintro ⟨a, b, c⟩
      exact ⟨(h1.1 a).2, (h2.1 b).2, (h3.1 c).2⟩
    · rintro ⟨a, b, c⟩
      refine ⟨h1.2 ⟨?_, a⟩, h2.2 ⟨?_, b⟩, h3.2 ⟨?_, c⟩⟩ <;> simp [requiredPlatforms]
  show (if (decide (3 ≤ sqlSocialPlatforms (joinRows socials nfts uid))) = true then 1 else 0) = _
  simp only [decide_eq_true_eq]
  exact if_congr hiff rfl rfl

/-! ### C6: the NFT-key count is corrupted by the join fan-out -/

/-- A user who has linked all three required platforms (the normal state of a
key-earning user). -/
def fanoutSocials : List UserSocialRow :=
  [{ id := 1, user_id := 1, platform := "twitter", handle := "a", deleted := false },
   { id := 2, user_id := 1, platform := "discord", handle := "b", deleted := false },
   { id := 3, user_id := 1, platform := "telegram", handle := "c", deleted := false }]

/-- The same user owns exactly one unused, not-deleted NFT. -/
def fanoutNfts : List UserNFTRow :=
  [{ id := 1, user_id := 1, nft_collection := "bayc", nft_id := "7", used := false,
     deleted := false, created_at := 0 }]

/-- C6.  Failing input for the claimed NFT-key mapping: the user has exactly
one not-deleted, unused NFTRecord (second conjunct), so the claim (and the
code's own comment `Minimum 2 keys for 1 NFT`) requires `nft_keys = 2`; but
the two `LEFT JOIN`s of the aggregate query pair that NFT row with each of the
user's three social rows, so `COUNT(CASE WHEN un.used = false ...)` returns 3
and the code awards `nft_keys = 3`. -/
theorem nft_keys_fanout_eval :
    (calculate_user_keys fanoutSocials fanoutNfts 1).nft_keys = 3
    ∧ (calculate_user_keys fanoutSocials fanoutNfts 1).unused_nft_count = 3
    ∧ (fanoutNfts.filter fun n => n.user_id == 1 && !n.used && !n.deleted).length = 1 := by
  decide

/-! ### Characterization of `open_box` -/

/-- Let-free unfolding of `assign_next_box_atomically`. -/
theorem assign_eq (uid : Nat) (s : AppState) :
    assign_next_box_atomically uid s =
      if s.counter.next_position ≤ s.counter.total_boxes then
        match s.boxes.find?
            (fun b => b.position == s.counter.next_position && !b.is_opened && !b.deleted) with
        | some b =>
            (some { id := b.id, position := b.position, reward_type := b.reward_type,
                    reward_description := b.reward_description, opened_by_user_id := uid },
             { s with
                counter := { next_position := s.counter.next_position + 1,
                             total_boxes := s.counter.total_boxes }
                boxes := s.boxes.map fun c =>
                  if c.position == s.counter.next_position && !c.is_opened && !c.deleted then
                    { c with is_opened := true, opened_by_user_id := some uid }
                  else c })
        | none =>
            (none, { s with
                counter := { next_position := s.counter.next_position + 1,
                             total_boxes := s.counter.total_boxes } })
      else (none, s) := rfl

/-- `assign_next_box_atomically` only touches the counter and the boxes. -/
theorem assign_preserves_fields (uid : Nat) (s : AppState) :
    ((assign_next_box_atomically uid s).2.key_count = s.key_count)
    ∧ ((assign_next_box_atomically uid s).2.nfts = s.nfts)
    ∧ ((assign_next_box_atomically uid s).2.socials = s.socials)
    ∧ ((assign_next_box_atomically uid s).2.counter.total_boxes = s.counter.total_boxes) := by
  rw [assign_eq]
  by_cases hle : s.counter.next_position ≤ s.counter.total_boxes
  · rw [if_pos hle]
    cases hfind : s.boxes.find?
        (fun b => b.position == s.counter.next_position && !b.is_opened && !b.deleted) with
    | none => exact ⟨rfl, rfl, rfl, rfl⟩
    | some b => exact ⟨rfl, rfl, rfl, rfl⟩
  · rw [if_neg hle]
    exact ⟨rfl, rfl, rfl, rfl⟩

/-- Full case analysis of `open_box`: key check, assignment outcome, and the
exact success state. -/
theorem open_box_spec (uid : Nat) (s : AppState) :
    (s.key_count uid ≤ 0 ∧ open_box uid s = (.insufficientKeys, s))
    ∨ (¬ s.key_count uid ≤ 0 ∧ (assign_next_box_atomically uid s).1 = none
        ∧ open_box uid s = (.poolExhausted, s))
    ∨ (¬ s.key_count uid ≤ 0 ∧ ∃ fb s₁, assign_next_box_atomically uid s = (some fb, s₁)
        ∧ open_box uid s =
          (.opened { box_id := fb.id
                     box_position := fb.position
                     remaining_keys := s₁.key_count uid - 1
                     key_source := "social"
                     nfts_used := []
                     key_remaining_available :=
                       (calculate_user_keys s₁.socials s₁.nfts uid).total_available },
           { s₁ with key_count := fun u => if u = uid then s₁.key_count u - 1 else s₁.key_count u })) := by
  by_cases hk : s.key_count uid ≤ 0
  · left
    refine ⟨hk, ?_⟩
    unfold open_box
    rw [if_pos hk]
  · rcases hA : assign_next_box_atomically uid s with ⟨o, t⟩
    cases o with
    | none =>
        right; left
        refine ⟨hk, rfl, ?_⟩
        unfold open_box
        rw [if_neg hk, hA]
    | some fb =>
        right; right
        refine ⟨hk, fb, t, rfl, ?_⟩
        unfold open_box
        rw [if_neg hk, hA]
        simp

/-- Invariants of a successful `open_box` call: it requires a positive key
count, decrements exactly the caller's key count by 1, leaves every NFT and
social row untouched, and hard-codes the key-consumption attribution. -/
theorem open_box_opened_inv (s : AppState) (uid : Nat) (resp : OpenResponse) (s' : AppState)
    (h : open_box uid s = (.opened resp, s')) :
    ¬ s.key_count uid ≤ 0
    ∧ s'.key_count uid = s.key_count uid - 1
    ∧ (∀ u, u ≠ uid → s'.key_count u = s.key_count u)
    ∧ s'.nfts = s.nfts
    ∧ s'.socials = s.socials
    ∧ resp.key_source = "social"
    ∧ resp.nfts_used = [] := by
  rcases open_box_spec uid s with ⟨hk, heq⟩ | ⟨hk, hnone, heq⟩ | ⟨hk, fb, s₁, hA, heq⟩
  · rw [heq] at h
    simp at h
  · rw [heq] at h
    simp at h
  · rw [heq] at h
    rw [Prod.mk.injEq] at h
    obtain ⟨h1, h2⟩ := h
    rw [OpenBoxResult.opened.injEq] at h1
    subst h2
    have hkc : s₁.key_count = s.key_count := by
      have hp := (assign_preserves_fields uid s).1
      rw [hA] at hp
      exact hp
    have hnf : s₁.nfts = s.nfts := by
      have hp := (assign_preserves_fields uid s).2.1
      rw [hA] at hp
      exact hp
    have hsoc : s₁.socials = s.socials := by
      have hp := (assign_preserves_fields uid s).2.2.1
      rw [hA] at hp
      exact hp
    refine ⟨hk, ?_, ?_, hnf, hsoc, ?_, ?_⟩
    · show (if uid = uid then s₁.key_count uid - 1 else s₁.key_count uid) = _
      rw [if_pos rfl, hkc]
    · intro u hu
      show (if u = uid then s₁.key_count u - 1 else s₁.key_count u) = _
      rw [if_neg hu, hkc]
    · rw [← h1]
    · rw [← h1]

/-- `open_box` preserves pointwise nonnegativity of key counts. -/
theorem open_box_key_nonneg (uid : Nat) (s : AppState) (h0 : ∀ u, 0 ≤ s.key_count u) :
    ∀ u, 0 ≤ (open_box uid s).2.key_count u := by
  rcases open_box_spec uid s with ⟨hk, heq⟩ | ⟨hk, hnone, heq⟩ | ⟨hk, fb, s₁, hA, heq⟩
  · rw [heq]; exact h0
  · rw [heq]; exact h0
  · rw [heq]
    intro u
    have hkc : s₁.key_count = s.key_count := by
      have hp := (assign_preserves_fields uid s).1
      rw [hA] at hp
      exact hp
    show 0 ≤ (if u = uid then s₁.key_count u - 1 else s₁.key_count u)
    by_cases hu : u = uid
    · rw [if_pos hu, hkc]
      subst hu
      have := h0 u
      omega
    · rw [if_neg hu, hkc]
      exact h0 u

/-- A run of `open_box` calls preserves pointwise nonnegativity of key counts. -/
theorem runOpen_key_nonneg (calls : List Nat) :
    ∀ s : AppState, (∀ u, 0 ≤ s.key_count u) →
      ∀ u, 0 ≤ (runOpen calls s).2.key_count u := by
  induction calls with
  | nil => intro s h0 u; exact h0 u
  | cons c cs ih =>
      intro s h0 u
      exact ih (open_box c s).2 (open_box_key_nonneg c s h0) u

/-- C3.  Over any run, key counts never become negative; a call is refused
with `InsufficientKeys` (and no mutation) exactly when the count at entry is
not positive; a successful call decrements by exactly 1; both failure kinds
leave the whole state unchanged. -/
theorem key_count_never_negative (s : AppState) (uid : Nat) (calls : List Nat)
    (h0 : ∀ u, 0 ≤ s.key_count u) :
    (∀ u, 0 ≤ (runOpen calls s).2.key_count u)
    ∧ (∀ resp s', open_box uid s = (.opened resp, s') →
        0 < s.key_count uid ∧ s'.key_count uid = s.key_count uid - 1)
    ∧ (s.key_count uid ≤ 0 → open_box uid s = (.insufficientKeys, s))
    ∧ (((open_box uid s).1 = .insufficientKeys ∨ (open_box uid s).1 = .poolExhausted) →
        (open_box uid s).2 = s) := by
  refine ⟨runOpen_key_nonneg calls s h0, ?_, ?_, ?_⟩
  · intro resp s' h
    have hi := open_box_opened_inv s uid resp s' h
    have hk := hi.1
    exact ⟨by omega, hi.2.1⟩
  · intro hk
    unfold open_box
    rw [if_pos hk]
  · intro h
    rcases open_box_spec uid s with ⟨hk, heq⟩ | ⟨hk, hnone, heq⟩ | ⟨hk, fb, s₁, hA, heq⟩
    · rw [heq]
    · rw [heq]
    · rw [heq] at h
      rcases h with h | h <;> simp at h

/-! ### A concrete NFT-only user and pool -/

/-- One unclaimed box at position 1, a user (id 1) holding 1 key, one unused
NFT and no social links: the user's only key source is NFT ownership. -/
def exNftState : AppState :=
  { counter := { next_position := 1, total_boxes := 1 }
    boxes := [{ id := 10, position := 1, reward_type := "apecoin", reward_description := "d",
                is_opened := false, opened_by_user_id := none, deleted := false }]
    key_count := fun _ => 1
    nfts := [{ id := 1, user_id := 1, nft_collection := "bayc", nft_id := "7", used := false,
               deleted := false, created_at := 0 }]
    socials := [] }

/-- The response `open_box 1 exNftState` produces. -/
def exResp : OpenResponse :=
  { box_id := 10, box_position := 1, remaining_keys := 0, key_source := "social",
    nfts_used := [], key_remaining_available := 2 }

/-- C1 counterexample.  A user whose only available keys derive from NFT
ownership (`social_keys = 0`, `nft_keys = 2`) successfully opens a box, yet
afterwards the NFT table is unchanged and no NFTRecord has `used = true`: the
claimed NFT-consumption (and NFT-over-social precedence) never happens. -/
theorem open_box_marks_no_nft_counterexample :
    isOpenedB (open_box 1 exNftState).1 = true
    ∧ (open_box 1 exNftState).2.nfts = exNftState.nfts
    ∧ (∀ n ∈ (open_box 1 exNftState).2.nfts, n.used = false)
    ∧ (calculate_user_keys exNftState.socials exNftState.nfts 1).social_keys = 0
    ∧ (calculate_user_keys exNftState.socials exNftState.nfts 1).nft_keys = 2 := by
  decide

/-- C1 (amended).  Every successful `open_box` call decrements the user's
key count by exactly 1, and no NFTRecord is ever marked `used = true`: the
NFT-consumption step (`mark_user_nfts_as_used`) is never invoked, so no
NFT-over-social precedence is applied. -/
theorem open_box_success_key_decrement_no_nft_use (s : AppState) (uid : Nat)
    (resp : OpenResponse) (s' : AppState)
    (h : open_box uid s = (.opened resp, s')) :
    s'.key_count uid = s.key_count uid - 1 ∧ s'.nfts = s.nfts := by
  have hi := open_box_opened_inv s uid resp s' h
  exact ⟨hi.2.1, hi.2.2.2.1⟩

theorem open_box_success_key_decrement_no_nft_use_witness :
    (open_box 1 exNftState).2.key_count 1 = exNftState.key_count 1 - 1
    ∧ (open_box 1 exNftState).2.nfts = exNftState.nfts := by
  have hfst : (open_box 1 exNftState).1 = OpenBoxResult.opened exResp := by decide
  have h : open_box 1 exNftState = (OpenBoxResult.opened exResp, (open_box 1 exNftState).2) := by
    rw [← hfst]
  exact open_box_success_key_decrement_no_nft_use exNftState 1 exResp (open_box 1 exNftState).2 h

theorem key_count_never_negative_witness :
    0 ≤ (runOpen [1] exNftState).2.key_count 1 :=
  (key_count_never_negative exNftState 1 [1] (fun u => by show (0:Int) ≤ 1; decide)).1 1

/-- C9.  Every successful `open_box` result reports
`key_consumption.key_source = "social"` and `key_consumption.nfts_used = []`:
both values are hard-coded in the returned dictionary, for every user, NFT-only
users included. -/
theorem open_box_reports_social_source (s : AppState) (uid : Nat)
    (resp : OpenResponse) (s' : AppState)
    (h : open_box uid s = (.opened resp, s')) :
    resp.key_source = "social" ∧ resp.nfts_used = [] := by
  have hi := open_box_opened_inv s uid resp s' h
  exact ⟨hi.2.2.2.2.2.1, hi.2.2.2.2.2.2⟩

theorem open_box_reports_social_source_witness :
    exResp.key_source = "social" ∧ exResp.nfts_used = [] := by
  have hfst : (open_box 1 exNftState).1 = OpenBoxResult.opened exResp := by decide
  have h : open_box 1 exNftState = (OpenBoxResult.opened exResp, (open_box 1 exNftState).2) := by
    rw [← hfst]
  exact open_box_reports_social_source exNftState 1 exResp (open_box 1 exNftState).2 h

/-! ### C10: add_social conflicts on soft-deleted rows too -/

/-- C10.  For a valid platform, `add_social` returns the 409 conflict and
creates nothing whenever ANY `user_social` row for the (user, platform) pair
exists — the existence query has no `deleted` filter, so soft-deleted rows
count; consequently the conflict persists after a soft delete, and a user can
never re-link a soft-deleted platform through this operation. -/
theorem add_social_conflict_on_any_existing_row (s : AppState) (uid : Nat)
    (platform handle : String) (newId rid : Nat)
    (hvalid : platform ∈ validPlatforms)
    (hex : ∃ r ∈ s.socials, r.user_id = uid ∧ r.platform = platform) :
    add_social uid platform handle newId s = (.conflict, s)
    ∧ add_social uid platform handle newId (social_soft_delete rid s)
        = (.conflict, social_soft_delete rid s) := by
  have hmain : ∀ t : AppState, (∃ r ∈ t.socials, r.user_id = uid ∧ r.platform = platform) →
      add_social uid platform handle newId t = (.conflict, t) := by
    intro t hext
    obtain ⟨r, hr, hru, hrp⟩ := hext
    have hsome : (t.socials.find? (fun q => q.user_id == uid && q.platform == platform)).isSome
        = true := by
      rw [List.find?_isSome]
      exact ⟨r, hr, by rw [Bool.and_eq_true, beq_iff_eq, beq_iff_eq]; exact ⟨hru, hrp⟩⟩
    obtain ⟨r0, hfind⟩ := Option.isSome_iff_exists.mp hsome
    unfold add_social
    rw [if_neg (not_not_intro hvalid), hfind]
  refine ⟨hmain s hex, hmain (social_soft_delete rid s) ?_⟩
  obtain ⟨r, hr, hru, hrp⟩ := hex
  refine ⟨(if r.id == rid then { r with deleted := true } else r), ?_, ?_⟩
  · exact List.mem_map_of_mem _ hr
  · split
    · exact ⟨hru, hrp⟩
    · exact ⟨hru, hrp⟩

/-! ### C8: the per-position claim -/

/-- Boolean row filter of the per-position claim, as a proposition. -/
theorem posFilter_iff (b : BoxRow) (pos : Nat) :
    ((b.position == pos && !b.deleted) = true) ↔ (b.position = pos ∧ b.deleted = false) := by
  rw [Bool.and_eq_true, beq_iff_eq, Bool.not_eq_true']

/-- `claimSpecific` when no not-deleted row exists at the position. -/
theorem claimSpecific_find_none (uid pos : Nat) (s : AppState)
    (h : s.boxes.find? (fun b => b.position == pos && !b.deleted) = none) :
    claimSpecific uid pos s = (.notFound, s) := by
  unfold claimSpecific
  rw [h]

/-- `claimSpecific` when the first not-deleted row at the position is opened. -/
theorem claimSpecific_find_opened (uid pos : Nat) (s : AppState) (b : BoxRow)
    (h : s.boxes.find? (fun b => b.position == pos && !b.deleted) = some b)
    (hop : b.is_opened = true) :
    claimSpecific uid pos s = (.alreadyClaimed, s) := by
  simp only [claimSpecific, h]
  rw [if_pos hop]

/-- `claimSpecific` when the first not-deleted row at the position is not yet
opened: it succeeds and marks every not-deleted row at that position opened. -/
theorem claimSpecific_find_unopened (uid pos : Nat) (s : AppState) (b : BoxRow)
    (h : s.boxes.find? (fun b => b.position == pos && !b.deleted) = some b)
    (hop : b.is_opened = false) :
    claimSpecific uid pos s =
      (.success { id := b.id, position := b.position, reward_type := b.reward_type,
                  reward_description := b.reward_description, opened_by_user_id := uid },
       { s with boxes := s.boxes.map fun c =>
           if c.position == pos && !c.deleted then
             { c with is_opened := true, opened_by_user_id := some uid }
           else c }) := by
  simp only [claimSpecific, h]
  rw [if_neg (by rw [hop]; exact Bool.false_ne_true)]

/-- C8.  `claimSpecific` yields the three-way result: `notFound` exactly when
no not-deleted box exists at the position, `alreadyClaimed` exactly when such
a box exists but is already opened (by anyone), and otherwise success with the
box at that position; and after a success at a position, any further claim of
that position (by any user, the same one included) returns `alreadyClaimed`,
never a second success. -/
theorem claim_specific_three_way (s : AppState) (uid uid2 pos : Nat)
    (hnd : (s.boxes.map BoxRow.position).Nodup) :
    ((claimSpecific uid pos s).1 = .notFound ↔
        ∀ b ∈ s.boxes, ¬(b.position = pos ∧ b.deleted = false))
    ∧ ((claimSpecific uid pos s).1 = .alreadyClaimed ↔
        ∃ b ∈ s.boxes, b.position = pos ∧ b.deleted = false ∧ b.is_opened = true)
    ∧ (∀ fb s', claimSpecific uid pos s = (.success fb, s') →
        (∃ b ∈ s.boxes, b.position = pos ∧ b.deleted = false ∧ b.is_opened = false)
        ∧ fb.position = pos
        ∧ (claimSpecific uid2 pos s').1 = .alreadyClaimed) := by
  cases hfind : s.boxes.find? (fun b => b.position == pos && !b.deleted) with
  | none =>
      have hres := claimSpecific_find_none uid pos s hfind
      have hnone := List.find?_eq_none.mp hfind
      refine ⟨?_, ?_, ?_⟩
      · rw [hres]
        constructor
        · intro _ b hb hc
          exact hnone b hb ((posFilter_iff b pos).mpr hc)
        · intro _
          rfl
      · rw [hres]
        constructor
        · intro h
          simp at h
        · rintro ⟨b, hb, hpos, hdel, hop⟩
          exact absurd ((posFilter_iff b pos).mpr ⟨hpos, hdel⟩) (hnone b hb)
      · intro fb s' heq
        rw [hres] at heq
        simp at heq
  | some b =>
      have hpb := List.find?_some hfind
      have hmb := List.mem_of_find?_eq_some hfind
      have hbpos : b.position = pos := ((posFilter_iff b pos).mp hpb).1
      have hbdel : b.deleted = false := ((posFilter_iff b pos).mp hpb).2
      by_cases hop : b.is_opened = true
      · have hres := claimSpecific_find_opened uid pos s b hfind hop
        refine ⟨?_, ?_, ?_⟩
        · rw [hres]
          constructor
          · intro h
            simp at h
          · intro hall
            exact ((hall b hmb) ⟨hbpos, hbdel⟩).elim
        · rw [hres]
          constructor
          · intro _
            exact ⟨b, hmb, hbpos, hbdel, hop⟩
          · intro _
            rfl
        · intro fb s' heq
          rw [hres] at heq
          simp at heq
      · have hop' : b.is_opened = false := by
          rwa [Bool.not_eq_true] at hop
        have hres := claimSpecific_find_unopened uid pos s b hfind hop'
        refine ⟨?_, ?_, ?_⟩
        · rw [hres]
          constructor
          · intro h
            simp at h
          · intro hall
            exact ((hall b hmb) ⟨hbpos, hbdel⟩).elim
        · rw [hres]
          constructor
          · intro h
            simp at h
          · rintro ⟨b', hb', hpos', hdel', hopen'⟩
            have hbb : b' = b :=
              List.inj_on_of_nodup_map hnd hb' hmb (hpos'.trans hbpos.symm)
            rw [hbb] at hopen'
            rw [hopen'] at hop'
            exact absurd hop' (by simp)
        · intro fb s' heq
          rw [hres, Prod.mk.injEq] at heq
          obtain ⟨h1, h2⟩ := heq
          rw [ClaimSpecificResult.success.injEq] at h1
          subst h2
          refine ⟨⟨b, hmb, hbpos, hbdel, hop'⟩, ?_, ?_⟩
          · rw [← h1]
            exact hbpos
          · cases hfind2 : (s.boxes.map fun c =>
                if c.position == pos && !c.deleted then
                  { c with is_opened := true, opened_by_user_id := some uid }
                else c).find? (fun b => b.position == pos && !b.deleted) with
            | none =>
                exfalso
                have hnone2 := List.find?_eq_none.mp hfind2
                have hmarked : ({ b with is_opened := true, opened_by_user_id := some uid }
                    : BoxRow) ∈ s.boxes.map (fun c =>
                      if c.position == pos && !c.deleted then
                        { c with is_opened := true, opened_by_user_id := some uid }
                      else c) := by
                  have hfb := List.mem_map_of_mem (fun c =>
                      if c.position == pos && !c.deleted then
                        { c with is_opened := true, opened_by_user_id := some uid }
                      else c) hmb
                  have hfb2 : (if (b.position == pos && !b.deleted) = true then
                      ({ b with is_opened := true, opened_by_user_id := some uid } : BoxRow)
                      else b) ∈ s.boxes.map (fun c =>
                        if c.position == pos && !c.deleted then
                          { c with is_opened := true, opened_by_user_id := some uid }
                        else c) := hfb
                  rwa [if_pos ((posFilter_iff b pos).mpr ⟨hbpos, hbdel⟩)] at hfb2
                exact hnone2 _ hmarked ((posFilter_iff _ pos).mpr ⟨hbpos, hbdel⟩)
            | some c =>
                have hpc := List.find?_some hfind2
                have hmc := List.mem_of_find?_eq_some hfind2
                rw [List.mem_map] at hmc
                obtain ⟨b₀, hb₀, hcb⟩ := hmc
                have hcb2 : (if (b₀.position == pos && !b₀.deleted) = true then
                    ({ b₀ with is_opened := true, opened_by_user_id := some uid } : BoxRow)
                    else b₀) = c := hcb
                have hcop : c.is_opened = true := by
                  by_cases hb₀p : (b₀.position == pos && !b₀.deleted) = true
                  · rw [if_pos hb₀p] at hcb2
                    rw [← hcb2]
                  · rw [if_neg hb₀p] at hcb2
                    rw [← hcb2] at hpc
                    exact absurd hpc hb₀p
                rw [claimSpecific_find_opened uid2 pos _ c hfind2 hcop]

/-- A concrete state with an existing twitter link for user 1. -/
def exSocialState : AppState := { exNftState with socials := fanoutSocials }

theorem add_social_conflict_on_any_existing_row_witness :
    add_social 1 ("twitter") ("h") 99 exSocialState = (.conflict, exSocialState)
    ∧ add_social 1 ("twitter") ("h") 99 (social_soft_delete 1 exSocialState)
        = (.conflict, social_soft_delete 1 exSocialState) :=
  add_social_conflict_on_any_existing_row exSocialState 1 ("twitter") ("h") 99 1
    (by decide) (by decide)

theorem claim_specific_three_way_witness :
    (claimSpecific 1 7 exNftState).1 = ClaimSpecificResult.notFound :=
  ((claim_specific_three_way exNftState 1 2 7 (by decide)).1).mpr (by decide)

/-! ### Pool well-formedness and the counter-based assignment -/

/-- The filter of the assignment's box `UPDATE`, as a proposition. -/
theorem assignFilter_iff (b : BoxRow) (n : Nat) :
    ((b.position == n && !b.is_opened && !b.deleted) = true) ↔
      (b.position = n ∧ b.is_opened = false ∧ b.deleted = false) := by
  rw [Bool.and_eq_true, Bool.and_eq_true, beq_iff_eq, Bool.not_eq_true', Bool.not_eq_true',
    and_assoc]

/-- Under `PoolWF`, the unclaimed positions are exactly the interval from the
counter to the pool size. -/
theorem unclaimed_mem_iff (s : AppState) (hwf : PoolWF s) (p : Nat) :
    p ∈ unclaimedPositions s ↔
      s.counter.next_position ≤ p ∧ p ≤ s.counter.total_boxes := by
  obtain ⟨hdel, hnd, hcov, hrng, hiff, h1, h2⟩ := hwf
  unfold unclaimedPositions
  rw [List.mem_map]
  constructor
  · rintro ⟨b, hb, rfl⟩
    rw [List.mem_filter] at hb
    obtain ⟨hbmem, hbpred⟩ := hb
    rw [Bool.and_eq_true, Bool.not_eq_true', Bool.not_eq_true'] at hbpred
    have hnotlt : ¬ b.position < s.counter.next_position := by
      intro hlt
      have := (hiff b hbmem).mpr hlt
      rw [this] at hbpred
      exact absurd hbpred.1 (by simp)
    exact ⟨Nat.le_of_not_lt hnotlt, (hrng b hbmem).2⟩
  · rintro ⟨hge, hle⟩
    have hp1 : 1 ≤ p := le_trans h1 hge
    obtain ⟨b, hbmem, hbpos⟩ := hcov p (by rw [List.mem_range'_1]; omega)
    refine ⟨b, ?_, hbpos⟩
    rw [List.mem_filter]
    refine ⟨hbmem, ?_⟩
    rw [Bool.and_eq_true, Bool.not_eq_true', Bool.not_eq_true']
    have hbop : b.is_opened = false := by
      cases hop : b.is_opened with
      | false => rfl
      | true =>
          have := (hiff b hbmem).mp hop
          rw [hbpos] at this
          omega
    exact ⟨hbop, hdel b hbmem⟩

/-- Under `PoolWF`, the number of unclaimed boxes is
`total_boxes + 1 - next_position`. -/
theorem unclaimed_length (s : AppState) (hwf : PoolWF s) :
    (unclaimedPositions s).length =
      s.counter.total_boxes + 1 - s.counter.next_position := by
  have hnodup : (unclaimedPositions s).Nodup := by
    unfold unclaimedPositions
    have hsub : ((s.boxes.filter fun b => !b.is_opened && !b.deleted).map BoxRow.position).Sublist
        (s.boxes.map BoxRow.position) :=
      List.Sublist.map BoxRow.position (List.filter_sublist s.boxes)
    exact List.Nodup.sublist hsub hwf.2.1
  have hrnodup : (List.range' s.counter.next_position
      (s.counter.total_boxes + 1 - s.counter.next_position)).Nodup := List.nodup_range' _ _
  have hmem : ∀ p, p ∈ unclaimedPositions s ↔ p ∈ List.range' s.counter.next_position
      (s.counter.total_boxes + 1 - s.counter.next_position) := by
    intro p
    rw [unclaimed_mem_iff s hwf p, List.mem_range'_1]
    have := hwf.2.2.2.2.2.2
    omega
  have hfin : (unclaimedPositions s).toFinset = (List.range' s.counter.next_position
      (s.counter.total_boxes + 1 - s.counter.next_position)).toFinset := by
    ext p
    rw [List.mem_toFinset, List.mem_toFinset]
    exact hmem p
  have h1 := List.toFinset_card_of_nodup hnodup
  have h2 := List.toFinset_card_of_nodup hrnodup
  rw [← h1, hfin, h2, List.length_range']

/-- Under `PoolWF`, when the counter has not run out the box `UPDATE` of the
assignment finds the (unopened, not-deleted) box at the counter position. -/
theorem exists_find_at_next (s : AppState) (hwf : PoolWF s)
    (hle : s.counter.next_position ≤ s.counter.total_boxes) :
    ∃ b, s.boxes.find?
        (fun b => b.position == s.counter.next_position && !b.is_opened && !b.deleted) = some b
      ∧ b.position = s.counter.next_position ∧ b.is_opened = false ∧ b.deleted = false := by
  obtain ⟨hdel, hnd, hcov, hrng, hiff, h1, h2⟩ := hwf
  obtain ⟨b0, hb0mem, hb0pos⟩ := hcov s.counter.next_position (by rw [List.mem_range'_1]; omega)
  have hb0op : b0.is_opened = false := by
    cases hop : b0.is_opened with
    | false => rfl
    | true =>
        have := (hiff b0 hb0mem).mp hop
        rw [hb0pos] at this
        omega
  have hsome : (s.boxes.find?
      (fun b => b.position == s.counter.next_position && !b.is_opened && !b.deleted)).isSome
      = true := by
    rw [List.find?_isSome]
    exact ⟨b0, hb0mem, (assignFilter_iff b0 _).mpr ⟨hb0pos, hb0op, hdel b0 hb0mem⟩⟩
  obtain ⟨b, hfind⟩ := Option.isSome_iff_exists.mp hsome
  have hp0 := List.find?_some hfind
  have hp1 : (b.position == s.counter.next_position && !b.is_opened && !b.deleted) = true := hp0
  exact ⟨b, hfind, (assignFilter_iff b s.counter.next_position).mp hp1⟩

/-- The boxes after a successful assignment at the counter position. -/
def assignedBoxes (uid : Nat) (s : AppState) : List BoxRow :=
  s.boxes.map fun c =>
    if c.position == s.counter.next_position && !c.is_opened && !c.deleted then
      { c with is_opened := true, opened_by_user_id := some uid }
    else c

/-- The state after a successful assignment: counter bumped, box marked. -/
def afterAssign (uid : Nat) (s : AppState) : AppState :=
  { s with
      counter := { next_position := s.counter.next_position + 1,
                   total_boxes := s.counter.total_boxes }
      boxes := assignedBoxes uid s }

/-- Value of a successful assignment. -/
theorem assign_eq_of_find (uid : Nat) (s : AppState) (b : BoxRow)
    (hle : s.counter.next_position ≤ s.counter.total_boxes)
    (hfind : s.boxes.find?
        (fun b => b.position == s.counter.next_position && !b.is_opened && !b.deleted) = some b) :
    assign_next_box_atomically uid s =
      (some { id := b.id, position := b.position, reward_type := b.reward_type,
              reward_description := b.reward_description, opened_by_user_id := uid },
       afterAssign uid s) := by
  rw [assign_eq, if_pos hle, hfind]
  exact rfl

/-- Value of an assignment whose counter has run out. -/
theorem assign_eq_of_exhausted (uid : Nat) (s : AppState)
    (hgt : ¬ s.counter.next_position ≤ s.counter.total_boxes) :
    assign_next_box_atomically uid s = (none, s) := by
  rw [assign_eq, if_neg hgt]

/-- A successful assignment preserves pool well-formedness. -/
theorem afterAssign_wf (uid : Nat) (s : AppState) (hwf : PoolWF s)
    (hle : s.counter.next_position ≤ s.counter.total_boxes) :
    PoolWF (afterAssign uid s) := by
  obtain ⟨hdel, hnd, hcov, hrng, hiff, h1, h2⟩ := hwf
  have hposmap : ∀ c : BoxRow,
      ((if c.position == s.counter.next_position && !c.is_opened && !c.deleted then
        ({ c with is_opened := true, opened_by_user_id := some uid } : BoxRow)
      else c)).position = c.position := by
    intro c
    split
    · rfl
    · rfl
  have hdelmap : ∀ c : BoxRow,
      ((if c.position == s.counter.next_position && !c.is_opened && !c.deleted then
        ({ c with is_opened := true, opened_by_user_id := some uid } : BoxRow)
      else c)).deleted = c.deleted := by
    intro c
    split
    · rfl
    · rfl
  have hmapmap : (assignedBoxes uid s).map BoxRow.position = s.boxes.map BoxRow.position := by
    unfold assignedBoxes
    rw [List.map_map]
    exact List.map_congr_left fun c _ => hposmap c
  refine ⟨?_, ?_, ?_, ?_, ?_, ?_, ?_⟩
  · intro c' hc'
    unfold afterAssign assignedBoxes at hc'
    rw [List.mem_map] at hc'
    obtain ⟨c, hc, rfl⟩ := hc'
    rw [hdelmap c]
    exact hdel c hc
  · show ((assignedBoxes uid s).map BoxRow.position).Nodup
    rw [hmapmap]
    exact hnd
  · intro p hp
    obtain ⟨b, hb, hbpos⟩ := hcov p hp
    refine ⟨(if b.position == s.counter.next_position && !b.is_opened && !b.deleted then
        ({ b with is_opened := true, opened_by_user_id := some uid } : BoxRow)
      else b), ?_, ?_⟩
    · exact List.mem_map_of_mem _ hb
    · rw [hposmap b]
      exact hbpos
  · intro c' hc'
    unfold afterAssign assignedBoxes at hc'
    rw [List.mem_map] at hc'
    obtain ⟨c, hc, rfl⟩ := hc'
    rw [hposmap c]
    exact hrng c hc
  · intro c' hc'
    unfold afterAssign assignedBoxes at hc'
    rw [List.mem_map] at hc'
    obtain ⟨c, hc, rfl⟩ := hc'
    show _ ↔ _ < s.counter.next_position + 1
    by_cases hcpred : (c.position == s.counter.next_position && !c.is_opened && !c.deleted) = true
    · rw [if_pos hcpred]
      obtain ⟨hcp, hco, hcd⟩ := (assignFilter_iff c _).mp hcpred
      constructor
      · intro _
        show c.position < s.counter.next_position + 1
        omega
      · intro _
        rfl
    · rw [if_neg hcpred]
      rw [hiff c hc]
      constructor
      · intro hlt
        omega
      · intro hlt
        rcases Nat.lt_succ_iff_lt_or_eq.mp hlt with hlt' | heq
        · exact hlt'
        · exfalso
          apply hcpred
          rw [assignFilter_iff]
          refine ⟨heq, ?_, hdel c hc⟩
          cases hop : c.is_opened with
          | false => rfl
          | true =>
              have := (hiff c hc).mp hop
              omega
  · show 1 ≤ s.counter.next_position + 1
    omega
  · show s.counter.next_position + 1 ≤ s.counter.total_boxes + 1
    omega

/-- The committed state of a successful `open_box`: assignment plus the key
decrement. -/
def afterOpen (uid : Nat) (s : AppState) : AppState :=
  { afterAssign uid s with
      key_count := fun u => if u = uid then s.key_count u - 1 else s.key_count u }

/-- Value of a successful `open_box`. -/
theorem open_box_eq_of_find (uid : Nat) (s : AppState) (b : BoxRow)
    (hk : ¬ s.key_count uid ≤ 0)
    (hle : s.counter.next_position ≤ s.counter.total_boxes)
    (hfind : s.boxes.find?
        (fun b => b.position == s.counter.next_position && !b.is_opened && !b.deleted) = some b) :
    open_box uid s =
      (.opened { box_id := b.id
                 box_position := b.position
                 remaining_keys := (afterOpen uid s).key_count uid
                 key_source := "social"
                 nfts_used := []
                 key_remaining_available :=
                   (calculate_user_keys s.socials s.nfts uid).total_available },
       afterOpen uid s) := by
  unfold open_box
  rw [if_neg hk, assign_eq_of_find uid s b hle hfind]
  exact rfl

/-- Value of `open_box` when the pool counter has run out. -/
theorem open_box_eq_of_exhausted (uid : Nat) (s : AppState)
    (hk : ¬ s.key_count uid ≤ 0)
    (hgt : ¬ s.counter.next_position ≤ s.counter.total_boxes) :
    open_box uid s = (.poolExhausted, s) := by
  unfold open_box
  rw [if_neg hk, assign_eq_of_exhausted uid s hgt]

/-- If no unclaimed box remains (whether or not the counter agrees), the
assignment reports the distinguished `None` rather than raising. -/
theorem assign_fst_none_of_no_unclaimed (uid : Nat) (s : AppState)
    (hempty : unclaimedPositions s = []) :
    (assign_next_box_atomically uid s).1 = none := by
  by_cases hle : s.counter.next_position ≤ s.counter.total_boxes
  · cases hfind : s.boxes.find?
        (fun b => b.position == s.counter.next_position && !b.is_opened && !b.deleted) with
    | none =>
        rw [assign_eq, if_pos hle, hfind]
    | some b =>
        exfalso
        have hp0 := List.find?_some hfind
        have hp1 : (b.position == s.counter.next_position && !b.is_opened && !b.deleted)
            = true := hp0
        obtain ⟨hbp, hbo, hbd⟩ := (assignFilter_iff b s.counter.next_position).mp hp1
        have hmem : b.position ∈ unclaimedPositions s := by
          unfold unclaimedPositions
          rw [List.mem_map]
          refine ⟨b, ?_, rfl⟩
          rw [List.mem_filter]
          exact ⟨List.mem_of_find?_eq_some hfind,
            by rw [Bool.and_eq_true, Bool.not_eq_true', Bool.not_eq_true']; exact ⟨hbo, hbd⟩⟩
        rw [hempty] at hmem
        exact absurd hmem (by simp)
  · rw [assign_eq_of_exhausted uid s hle]

/-- C4.  When no unclaimed box remains, `assign_next_box_atomically` returns
the distinguished `None` result (never raising for this expected condition)
and `open_box` — reached with a positive key balance — fails with the 404
pool-exhausted error, charging no key and mutating nothing; conversely, on a
well-formed pool with an unclaimed box remaining, the assignment does not
report exhaustion. -/
theorem pool_exhausted_behaviour (s : AppState) (uid : Nat) :
    ((unclaimedPositions s = []) →
        (assign_next_box_atomically uid s).1 = none
        ∧ (0 < s.key_count uid → open_box uid s = (.poolExhausted, s)))
    ∧ (PoolWF s → unclaimedPositions s ≠ [] →
        ∃ fb s', assign_next_box_atomically uid s = (some fb, s')) := by
  constructor
  · intro hempty
    have hnone := assign_fst_none_of_no_unclaimed uid s hempty
    refine ⟨hnone, ?_⟩
    intro hkpos
    have hk : ¬ s.key_count uid ≤ 0 := by omega
    rcases hA : assign_next_box_atomically uid s with ⟨o, t⟩
    cases o with
    | none =>
        unfold open_box
        rw [if_neg hk, hA]
    | some fb =>
        exfalso
        rw [hA] at hnone
        exact absurd hnone (by simp)
  · intro hwf hne
    obtain ⟨p, hp⟩ := List.exists_mem_of_ne_nil _ hne
    have hbounds := (unclaimed_mem_iff s hwf p).mp hp
    have hle : s.counter.next_position ≤ s.counter.total_boxes := by omega
    obtain ⟨b, hfind, _, _, _⟩ := exists_find_at_next s hwf hle
    exact ⟨_, _, assign_eq_of_find uid s b hle hfind⟩

/-- A pool-state with no unclaimed box left: position 1 opened and the
counter past the total. -/
def exEmptyState : AppState :=
  { exNftState with
      counter := { next_position := 2, total_boxes := 1 }
      boxes := [{ id := 10, position := 1, reward_type := "apecoin", reward_description := "d",
                  is_opened := true, opened_by_user_id := some 1, deleted := false }] }

theorem pool_exhausted_behaviour_witness :
    (assign_next_box_atomically 1 exEmptyState).1 = none
    ∧ open_box 1 exEmptyState = (.poolExhausted, exEmptyState) := by
  have h := (pool_exhausted_behaviour exEmptyState 1).1 (by decide)
  exact ⟨h.1, h.2 (by decide)⟩

/-! ### Runs of open_box calls -/

theorem runOpen_cons (c : Nat) (cs : List Nat) (s : AppState) :
    runOpen (c :: cs) s =
      ((open_box c s).1 :: (runOpen cs (open_box c s).2).1,
       (runOpen cs (open_box c s).2).2) := rfl

theorem successPositions_cons_opened (resp : OpenResponse) (rest : List OpenBoxResult) :
    successPositions (OpenBoxResult.opened resp :: rest)
      = resp.box_position :: successPositions rest := rfl

theorem successPositions_cons_exhausted (rest : List OpenBoxResult) :
    successPositions (OpenBoxResult.poolExhausted :: rest) = successPositions rest := rfl

theorem countP_exh_cons_opened (resp : OpenResponse) (rest : List OpenBoxResult) :
    (OpenBoxResult.opened resp :: rest).countP isExhaustedB
      = rest.countP isExhaustedB := by
  rw [List.countP_cons]
  rfl

theorem countP_exh_cons_exhausted (rest : List OpenBoxResult) :
    (OpenBoxResult.poolExhausted :: rest).countP isExhaustedB
      = rest.countP isExhaustedB + 1 := by
  rw [List.countP_cons]
  rfl

/-- The general run invariant: from a well-formed pool with `M` unclaimed
boxes, a run of calls by distinct users who each hold a key produces
successes at positions `next, next+1, ...` — `min M N` of them — and
`N - min M N` pool-exhausted failures, and nothing else. -/
theorem runOpen_spec (calls : List Nat) :
    ∀ s : AppState, PoolWF s → calls.Nodup →
      (∀ u ∈ calls, 1 ≤ s.key_count u) →
      successPositions (runOpen calls s).1
        = List.range' s.counter.next_position
            (min (s.counter.total_boxes + 1 - s.counter.next_position) calls.length)
      ∧ (runOpen calls s).1.countP isExhaustedB
        = calls.length - min (s.counter.total_boxes + 1 - s.counter.next_position) calls.length
      ∧ (∀ r ∈ (runOpen calls s).1, isOpenedB r = true ∨ r = OpenBoxResult.poolExhausted) := by
  induction calls with
  | nil =>
      intro s hwf hnd hkeys
      refine ⟨?_, ?_, ?_⟩ <;> simp [runOpen, successPositions]
  | cons c cs ih =>
      intro s hwf hnd hkeys
      rw [List.nodup_cons] at hnd
      have hkc : 1 ≤ s.key_count c := hkeys c (List.mem_cons_self c cs)
      have hk : ¬ s.key_count c ≤ 0 := by omega
      by_cases hle : s.counter.next_position ≤ s.counter.total_boxes
      · obtain ⟨b, hfind, hbpos, hbop, hbdel⟩ := exists_find_at_next s hwf hle
        have hopen := open_box_eq_of_find c s b hk hle hfind
        have hwf2 : PoolWF (afterOpen c s) := afterAssign_wf c s hwf hle
        have hkeys2 : ∀ u ∈ cs, 1 ≤ (afterOpen c s).key_count u := by
          intro u hu
          have hne : u ≠ c := fun he => hnd.1 (he ▸ hu)
          show 1 ≤ (if u = c then s.key_count u - 1 else s.key_count u)
          rw [if_neg hne]
          exact hkeys u (List.mem_cons_of_mem c hu)
        have hres := ih (afterOpen c s) hwf2 hnd.2 hkeys2
        have hnext2 : (afterOpen c s).counter.next_position = s.counter.next_position + 1 := rfl
        have htot2 : (afterOpen c s).counter.total_boxes = s.counter.total_boxes := rfl
        rw [hnext2, htot2] at hres
        have hM1 : s.counter.total_boxes + 1 - (s.counter.next_position + 1)
            = s.counter.total_boxes + 1 - s.counter.next_position - 1 := by omega
        have hminsucc : min (s.counter.total_boxes + 1 - s.counter.next_position)
              (cs.length + 1)
            = min (s.counter.total_boxes + 1 - s.counter.next_position - 1) cs.length + 1 := by
          rcases Nat.le_total (s.counter.total_boxes + 1 - s.counter.next_position - 1)
              cs.length with h | h
          · rw [min_eq_left h, min_eq_left (by omega)]
            omega
          · rw [min_eq_right h, min_eq_right (by omega)]
        refine ⟨?_, ?_, ?_⟩
        · simp only [runOpen_cons, hopen, successPositions_cons_opened]
          rw [hres.1, hM1, hbpos]
          show _ = List.range' s.counter.next_position
            (min (s.counter.total_boxes + 1 - s.counter.next_position) (cs.length + 1))
          rw [hminsucc, List.range'_succ]
        · simp only [runOpen_cons, hopen, countP_exh_cons_opened, List.length_cons]
          rw [hres.2.1, hM1, hminsucc]
          omega
        · intro r hr
          simp only [runOpen_cons, hopen] at hr
          rw [List.mem_cons] at hr
          rcases hr with rfl | hr
          · left
            rfl
          · exact hres.2.2 r hr
      · have hM0 : s.counter.total_boxes + 1 - s.counter.next_position = 0 := by omega
        have hopen := open_box_eq_of_exhausted c s hk hle
        have hres := ih s hwf hnd.2 (fun u hu => hkeys u (List.mem_cons_of_mem c hu))
        refine ⟨?_, ?_, ?_⟩
        · simp only [runOpen_cons, hopen, successPositions_cons_exhausted]
          rw [hres.1, hM0, Nat.zero_min, Nat.zero_min]
        · simp only [runOpen_cons, hopen, countP_exh_cons_exhausted, List.length_cons]
          rw [hres.2.1, hM0, Nat.zero_min, Nat.zero_min]
          omega
        · intro r hr
          simp only [runOpen_cons, hopen] at hr
          rw [List.mem_cons] at hr
          rcases hr with rfl | hr
          · right
            rfl
          · exact hres.2.2 r hr

/-- C2.  Interleaved `openReward` calls from `N` distinct users, each holding
a key, against a well-formed pool with `M < N` unclaimed boxes: exactly `M`
calls succeed, the returned positions are pairwise distinct and their set is
exactly the set of positions unclaimed before the run (so no box is returned
to two callers), and the remaining `N - M` calls get `PoolExhausted`. -/
theorem openReward_no_double_claim (s : AppState) (calls : List Nat)
    (hwf : PoolWF s) (hnd : calls.Nodup)
    (hkeys : ∀ u ∈ calls, 1 ≤ s.key_count u)
    (hM : (unclaimedPositions s).length < calls.length) :
    (successPositions (runOpen calls s).1).Nodup
    ∧ (∀ p, p ∈ successPositions (runOpen calls s).1 ↔ p ∈ unclaimedPositions s)
    ∧ (successPositions (runOpen calls s).1).length = (unclaimedPositions s).length
    ∧ (runOpen calls s).1.countP isExhaustedB = calls.length - (unclaimedPositions s).length
    ∧ (∀ r ∈ (runOpen calls s).1, isOpenedB r = true ∨ r = OpenBoxResult.poolExhausted) := by
  have hlen := unclaimed_length s hwf
  have hrun := runOpen_spec calls s hwf hnd hkeys
  have hminM : min (s.counter.total_boxes + 1 - s.counter.next_position) calls.length
      = s.counter.total_boxes + 1 - s.counter.next_position := min_eq_left (by omega)
  refine ⟨?_, ?_, ?_, ?_, hrun.2.2⟩
  · rw [hrun.1]
    exact List.nodup_range' _ _
  · intro p
    rw [hrun.1, hminM, unclaimed_mem_iff s hwf p, List.mem_range'_1]
    have := hwf.2.2.2.2.2.2
    omega
  · rw [hrun.1, hminM, List.length_range', hlen]
  · rw [hrun.2.1, hminM, hlen]

theorem openReward_no_double_claim_witness :
    (successPositions (runOpen [1, 2] exNftState).1).length
      = (unclaimedPositions exNftState).length :=
  (openReward_no_double_claim exNftState [1, 2]
    (by decide) (by decide) (by decide) (by decide)).2.2.1

/-- C5.  A successful assignment returns the unclaimed box of lowest position
(on a well-formed pool), and a run of claims against an initially full pool
(counter at 1) returns positions `1, 2, 3, ...` in increasing order. -/
theorem claim_next_lowest_position (s : AppState) (uid : Nat) (hwf : PoolWF s) :
    (∀ fb s', assign_next_box_atomically uid s = (some fb, s') →
        fb.position ∈ unclaimedPositions s
        ∧ ∀ p ∈ unclaimedPositions s, fb.position ≤ p)
    ∧ (∀ calls : List Nat, s.counter.next_position = 1 → calls.Nodup →
        (∀ u ∈ calls, 1 ≤ s.key_count u) →
        successPositions (runOpen calls s).1
          = List.range' 1 (min s.counter.total_boxes calls.length)) := by
  constructor
  · intro fb s' hA
    by_cases hle : s.counter.next_position ≤ s.counter.total_boxes
    · cases hfind : s.boxes.find?
          (fun b => b.position == s.counter.next_position && !b.is_opened && !b.deleted) with
      | none =>
          rw [assign_eq, if_pos hle, hfind] at hA
          have hnone : (none : Option FastBox) = some fb := congrArg Prod.fst hA
          exact absurd hnone (by simp)
      | some b =>
          rw [assign_eq_of_find uid s b hle hfind] at hA
          rw [Prod.mk.injEq] at hA
          obtain ⟨h1, h2⟩ := hA
          rw [Option.some_inj] at h1
          have hp0 := List.find?_some hfind
          have hp1 : (b.position == s.counter.next_position && !b.is_opened && !b.deleted)
              = true := hp0
          obtain ⟨hbp, hbo, hbd⟩ := (assignFilter_iff b s.counter.next_position).mp hp1
          have hfbpos : fb.position = s.counter.next_position := by
            rw [← h1]
            exact hbp
          constructor
          · rw [unclaimed_mem_iff s hwf, hfbpos]
            exact ⟨le_refl _, hle⟩
          · intro p hp
            rw [unclaimed_mem_iff s hwf] at hp
            rw [hfbpos]
            exact hp.1
    · rw [assign_eq_of_exhausted uid s hle] at hA
      have hnone : (none : Option FastBox) = some fb := congrArg Prod.fst hA
      exact absurd hnone (by simp)
  · intro calls h1 hnd hkeys
    have hrun := runOpen_spec calls s hwf hnd hkeys
    rw [hrun.1, h1, Nat.add_sub_cancel]

/-- The box object returned for the first assignment of `exNftState`. -/
def exFb : FastBox :=
  { id := 10, position := 1, reward_type := "apecoin", reward_description := "d",
    opened_by_user_id := 1 }

theorem claim_next_lowest_position_witness :
    exFb.position ∈ unclaimedPositions exNftState := by
  have h1 : (assign_next_box_atomically 1 exNftState).1 = some exFb := by decide
  have hA : assign_next_box_atomically 1 exNftState
      = (some exFb, (assign_next_box_atomically 1 exNftState).2) := by
    rw [← h1]
  exact ((claim_next_lowest_position exNftState 1 (by decide)).1 exFb
    (assign_next_box_atomically 1 exNftState).2 hA).1

end BoxCampaign
